import Mathlib

/-!
# Verification of `thalesians.adiutor.stats.calculators`

A shallow embedding of the incremental statistics calculators of
`src/thalesians/adiutor/stats/calculators.py`, together with theorems
settling the behavioural claims about them.

Modelling conventions:
* observations are rationals (`ℚ`), modelling real/floating-point scalars
  exactly (rounding and overflow are out of scope);
* a statistic field of type `Option ℚ` uses `none` for an IEEE non-finite
  value (the initial `float('NaN')`, and values the code later tests with
  `np.isfinite` / `math.isnan`); `some q` is a finite value;
* each Python class becomes a structure holding its instance attributes, and
  each method becomes a function on that structure, translated line by line.
-/

/-- Division as it behaves on IEEE floats restricted to finite operands:
division by zero yields a non-finite value (`none`); otherwise the exact
quotient. -/
def qdiv (a b : ℚ) : Option ℚ :=
  if b = 0 then none else some (a / b)

/-- `ArithmeticMeanIncrementalCalculator`: instance attributes `_count` and
`_statistic` (lines 119-122, 341-343 of calculators.py). -/
structure ArithmeticMeanIncrementalCalculator where
  count : ℕ
  statistic : Option ℚ
deriving Repr, DecidableEq

namespace ArithmeticMeanIncrementalCalculator

/-- `__init__`: `_count = 0`, `_statistic = float('NaN')`. -/
def init : ArithmeticMeanIncrementalCalculator := ⟨0, none⟩

/-- `append` (lines 345-351): `statistic += (1/(count+1)) * (x - statistic)`,
then the `np.isfinite` repair replaces a non-finite statistic by `x`
(the scalar branch of the elementwise NaN repair), then `count += 1`.
When the previous statistic is `none` (NaN), `NaN + anything` is NaN, the
`np.isfinite` test fails and the statistic becomes `x` directly; a finite
rational statistic stays finite. -/
def append (s : ArithmeticMeanIncrementalCalculator) (x : ℚ) :
    ArithmeticMeanIncrementalCalculator :=
  match s.statistic with
  | none => ⟨s.count + 1, some x⟩
  | some m => ⟨s.count + 1, some (m + (1 / (s.count + 1)) * (x - m))⟩

/-- `append` when the observation itself is a non-finite value (NaN/inf fed by
a composite owner): the updated statistic is non-finite, the `np.isfinite`
repair then assigns the non-finite `x` itself, so the statistic is `none`. -/
def appendOpt (s : ArithmeticMeanIncrementalCalculator) (x : Option ℚ) :
    ArithmeticMeanIncrementalCalculator :=
  match x with
  | none => ⟨s.count + 1, none⟩
  | some q => s.append q

/-- `get_statistic` (lines 127-128). -/
def get_statistic (s : ArithmeticMeanIncrementalCalculator) : Option ℚ :=
  s.statistic

/-- `get_count` (lines 124-125). -/
def get_count (s : ArithmeticMeanIncrementalCalculator) : ℕ :=
  s.count

/-- `extend` (lines 133-134): append each element in order. -/
def extend (s : ArithmeticMeanIncrementalCalculator) (xs : List ℚ) :
    ArithmeticMeanIncrementalCalculator :=
  xs.foldl append s

end ArithmeticMeanIncrementalCalculator

/-- A fresh arithmetic-mean calculator fed `xs` in order. -/
def mean_fold (xs : List ℚ) : ArithmeticMeanIncrementalCalculator :=
  xs.foldl ArithmeticMeanIncrementalCalculator.append
    ArithmeticMeanIncrementalCalculator.init

lemma mean_fold_append (xs : List ℚ) (x : ℚ) :
    mean_fold (xs ++ [x]) = (mean_fold xs).append x := by
  simp [mean_fold, List.foldl_append]

lemma mean_fold_count (xs : List ℚ) : (mean_fold xs).count = xs.length := by
  induction xs using List.reverseRecOn with
  | nil => rfl
  | append_singleton xs x ih =>
      cases h : (mean_fold xs).statistic <;>
        simp [mean_fold_append, ArithmeticMeanIncrementalCalculator.append, h, ih]

/-- Correctness of the incremental mean: after a non-empty sequence the
statistic is the arithmetic mean of the sequence. -/
lemma mean_fold_statistic (xs : List ℚ) (h : xs ≠ []) :
    (mean_fold xs).statistic = some (xs.sum / xs.length) := by
  induction xs using List.reverseRecOn with
  | nil => exact absurd rfl h
  | append_singleton xs x ih =>
      rcases eq_or_ne xs [] with rfl | hne
      · simp [mean_fold, ArithmeticMeanIncrementalCalculator.append,
          ArithmeticMeanIncrementalCalculator.init]
      · rw [mean_fold_append, ArithmeticMeanIncrementalCalculator.append]
        rw [ih hne]
        have hn : (0 : ℚ) < xs.length := by
          have := List.length_pos.mpr hne
          exact_mod_cast this
        have hcount := mean_fold_count xs
        simp only [hcount, List.sum_append, List.length_append,
          List.sum_cons, List.sum_nil, List.length_cons, List.length_nil]
        congr 1
        have h1 : ((xs.length : ℚ) + 1) ≠ 0 := by positivity
        field_simp
        ring

/-- `VarianceIncrementalCalculator`: instance attributes (lines 433-439). -/
structure VarianceIncrementalCalculator where
  count : ℕ
  statistic : Option ℚ
  average_calculator : ArithmeticMeanIncrementalCalculator
  ddof : ℚ
  semi : Bool
deriving Repr, DecidableEq

namespace VarianceIncrementalCalculator

/-- `__init__` with an owned fresh arithmetic-mean calculator (the default). -/
def init (ddof : ℚ) (semi : Bool) : VarianceIncrementalCalculator :=
  ⟨0, none, ArithmeticMeanIncrementalCalculator.init, ddof, semi⟩

/-- `append` (lines 441-452):
`count += 1`;
`delta = x - mean.get_statistic() if count > 1 else 0.` (subtracting a NaN
mean gives NaN, hence the `Option.map`);
update the mean; `delta2 = x - mean.get_statistic()`;
in `semi` mode clamp `delta2` to `min(delta2, 0)`;
`statistic += delta*delta2`, and the `np.isfinite` repair replaces a
non-finite statistic by the product (scalar branch). -/
def append (s : VarianceIncrementalCalculator) (x : ℚ) :
    VarianceIncrementalCalculator :=
  let count1 := s.count + 1
  let delta : Option ℚ :=
    if count1 > 1 then s.average_calculator.get_statistic.map (fun m => x - m)
    else some 0
  let avg1 := s.average_calculator.append x
  let delta2 : Option ℚ := avg1.get_statistic.map (fun m => x - m)
  let delta2 := if s.semi then delta2.map (fun d => min d 0) else delta2
  let product : Option ℚ := do pure ((← delta) * (← delta2))
  let statistic1 : Option ℚ :=
    match product with
    | none => none
    | some p =>
        match s.statistic with
        | none => some p
        | some m2 => some (m2 + p)
  ⟨count1, statistic1, avg1, s.ddof, s.semi⟩

/-- `get_statistic` (lines 454-456): `np.nan` when `count < 2`, otherwise
`statistic / (count - ddof)`. -/
def get_statistic (s : VarianceIncrementalCalculator) : Option ℚ :=
  if s.count < 2 then none
  else s.statistic.map (fun m2 => m2 / ((s.count : ℚ) - s.ddof))

/-- `get_count` (inherited, lines 124-125). -/
def get_count (s : VarianceIncrementalCalculator) : ℕ := s.count

end VarianceIncrementalCalculator

/-- A fresh variance calculator (given `ddof`, `semi`) fed `xs` in order. -/
def var_fold (ddof : ℚ) (semi : Bool) (xs : List ℚ) :
    VarianceIncrementalCalculator :=
  xs.foldl VarianceIncrementalCalculator.append
    (VarianceIncrementalCalculator.init ddof semi)

/-- The two-pass sum of squared deviations from the mean,
`sum((x_i - mean)^2)` with `mean = sum(xs)/len(xs)`. -/
def two_pass_m2 (xs : List ℚ) : ℚ :=
  (xs.map (fun x => (x - xs.sum / xs.length) ^ 2)).sum

lemma sum_sq_dev_expand (xs : List ℚ) (c : ℚ) :
    (xs.map (fun y => (y - c) ^ 2)).sum
      = (xs.map (fun y => y ^ 2)).sum - 2 * c * xs.sum
        + (xs.length : ℚ) * c ^ 2 := by
  induction xs with
  | nil => simp
  | cons a l ih =>
      simp only [List.map_cons, List.sum_cons, List.length_cons, ih]
      push_cast
      ring

/-- The Welford step identity: extending a non-empty sequence by `x` adds
`(x - mean_before) * (x - mean_after)` to the two-pass sum of squared
deviations. -/
lemma two_pass_m2_append (xs : List ℚ) (x : ℚ) (h : xs ≠ []) :
    two_pass_m2 (xs ++ [x])
      = two_pass_m2 xs
        + (x - xs.sum / xs.length)
          * (x - (xs.sum + x) / (xs.length + 1)) := by
  have hn : (0 : ℚ) < xs.length := by exact_mod_cast List.length_pos.mpr h
  have h0 : (xs.length : ℚ) ≠ 0 := ne_of_gt hn
  have h1 : ((xs.length : ℚ) + 1) ≠ 0 := by positivity
  unfold two_pass_m2
  simp only [List.map_append, List.sum_append, List.length_append,
    List.map_cons, List.map_nil, List.sum_cons, List.sum_nil,
    List.length_cons, List.length_nil, sum_sq_dev_expand]
  push_cast
  field_simp
  ring

lemma var_fold_append (ddof : ℚ) (semi : Bool) (xs : List ℚ) (x : ℚ) :
    var_fold ddof semi (xs ++ [x])
      = (var_fold ddof semi xs).append x := by
  simp [var_fold, List.foldl_append]

lemma var_fold_consts (ddof : ℚ) (semi : Bool) (xs : List ℚ) :
    (var_fold ddof semi xs).ddof = ddof
      ∧ (var_fold ddof semi xs).semi = semi := by
  induction xs using List.reverseRecOn with
  | nil => exact ⟨rfl, rfl⟩
  | append_singleton xs x ih =>
      rw [var_fold_append]
      exact ⟨ih.1, ih.2⟩

lemma var_fold_avg (ddof : ℚ) (semi : Bool) (xs : List ℚ) :
    (var_fold ddof semi xs).average_calculator = mean_fold xs := by
  induction xs using List.reverseRecOn with
  | nil => rfl
  | append_singleton xs x ih =>
      rw [var_fold_append, mean_fold_append, ← ih]
      rfl

lemma var_fold_count (ddof : ℚ) (semi : Bool) (xs : List ℚ) :
    (var_fold ddof semi xs).count = xs.length := by
  induction xs using List.reverseRecOn with
  | nil => rfl
  | append_singleton xs x ih =>
      rw [var_fold_append]
      simp [VarianceIncrementalCalculator.append, ih]

/-- Correctness of the Welford accumulator: with `semi = false`, after a
non-empty sequence the accumulated `M2` equals the two-pass sum of squared
deviations. -/
lemma var_fold_statistic (ddof : ℚ) (xs : List ℚ) (h : xs ≠ []) :
    (var_fold ddof false xs).statistic = some (two_pass_m2 xs) := by
  induction xs using List.reverseRecOn with
  | nil => exact absurd rfl h
  | append_singleton xs x ih =>
      rcases eq_or_ne xs [] with rfl | hne
      · simp [var_fold, VarianceIncrementalCalculator.append,
          VarianceIncrementalCalculator.init, two_pass_m2,
          ArithmeticMeanIncrementalCalculator.append,
          ArithmeticMeanIncrementalCalculator.init,
          ArithmeticMeanIncrementalCalculator.get_statistic]
      · rw [var_fold_append, VarianceIncrementalCalculator.append]
        have hsemi := (var_fold_consts ddof false xs).2
        have hcnt := var_fold_count ddof false xs
        have havg := var_fold_avg ddof false xs
        have hlen : 0 < xs.length := List.length_pos.mpr hne
        have hgt : xs.length + 1 > 1 := by omega
        simp only [havg, hcnt, hsemi, ih hne, hgt, if_pos,
          ArithmeticMeanIncrementalCalculator.get_statistic,
          mean_fold_statistic xs hne, if_true, Option.map_some,
          Bool.false_eq_true, if_false]
        rw [show mean_fold xs = ⟨(mean_fold xs).count, (mean_fold xs).statistic⟩
          from rfl]
        simp only [mean_fold_statistic xs hne, mean_fold_count,
          ArithmeticMeanIncrementalCalculator.append]
        rw [two_pass_m2_append xs x hne]
        simp only [Option.pure_def, Option.bind_some, Option.some_bind]
        have hnq : (0 : ℚ) < xs.length := by exact_mod_cast hlen
        have h1 : ((xs.length : ℚ) + 1) ≠ 0 := by positivity
        field_simp
        ring

/-- `CovarianceIncrementalCalculator`: instance attributes (lines 519-526). -/
structure CovarianceIncrementalCalculator where
  count : ℕ
  statistic : Option ℚ
  average_calculator1 : ArithmeticMeanIncrementalCalculator
  average_calculator2 : ArithmeticMeanIncrementalCalculator
  ddof : ℚ
deriving Repr, DecidableEq

namespace CovarianceIncrementalCalculator

/-- `__init__` with owned fresh arithmetic-mean calculators (the default). -/
def init (ddof : ℚ) : CovarianceIncrementalCalculator :=
  ⟨0, none, ArithmeticMeanIncrementalCalculator.init,
    ArithmeticMeanIncrementalCalculator.init, ddof⟩

/-- `append` (lines 528-537): `count += 1`;
`delta1 = x[0] - mean1.get_statistic()` (NaN mean gives NaN `delta1`);
update both means; `delta2 = x[1] - mean2.get_statistic()`;
if `math.isnan(statistic)` assign `delta1*delta2`, else add it
(adding a NaN product leaves NaN). -/
def append (s : CovarianceIncrementalCalculator) (x : ℚ × ℚ) :
    CovarianceIncrementalCalculator :=
  let count1 := s.count + 1
  let delta1 : Option ℚ :=
    s.average_calculator1.get_statistic.map (fun m => x.1 - m)
  let avg1 := s.average_calculator1.append x.1
  let avg2 := s.average_calculator2.append x.2
  let delta2 : Option ℚ := avg2.get_statistic.map (fun m => x.2 - m)
  let product : Option ℚ := do pure ((← delta1) * (← delta2))
  let statistic1 : Option ℚ :=
    match s.statistic with
    | none => product
    | some m => product.map (fun p => m + p)
  ⟨count1, statistic1, avg1, avg2, s.ddof⟩

/-- `get_statistic` (lines 539-541): `np.nan` when `count < 2`, otherwise
`statistic / (count - ddof)`. -/
def get_statistic (s : CovarianceIncrementalCalculator) : Option ℚ :=
  if s.count < 2 then none
  else s.statistic.map (fun m => m / ((s.count : ℚ) - s.ddof))

/-- `get_count` (inherited, lines 124-125). -/
def get_count (s : CovarianceIncrementalCalculator) : ℕ := s.count

end CovarianceIncrementalCalculator

/-- A fresh covariance calculator fed the pairs `ps` in order. -/
def cov_fold (ddof : ℚ) (ps : List (ℚ × ℚ)) : CovarianceIncrementalCalculator :=
  ps.foldl CovarianceIncrementalCalculator.append
    (CovarianceIncrementalCalculator.init ddof)

lemma cov_fold_append (ddof : ℚ) (ps : List (ℚ × ℚ)) (p : ℚ × ℚ) :
    cov_fold ddof (ps ++ [p]) = (cov_fold ddof ps).append p := by
  simp [cov_fold, List.foldl_append]

lemma cov_fold_count (ddof : ℚ) (ps : List (ℚ × ℚ)) :
    (cov_fold ddof ps).count = ps.length := by
  induction ps using List.reverseRecOn with
  | nil => rfl
  | append_singleton ps p ih =>
      rw [cov_fold_append]
      simp [CovarianceIncrementalCalculator.append, ih]

/-- The integer square root (largest `k` with `k * k ≤ n`), computed by a
structurally recursive search so that closed instances reduce in the kernel. -/
def natSqrtLinear (n : ℕ) : ℕ :=
  ((List.range (n + 1)).filter (fun k => k * k ≤ n)).foldl max 0

/-- Exact square root on the rationals, modelling `np.sqrt` restricted to the
inputs this development evaluates it on: a negative argument yields NaN
(`none`), the root of a non-negative perfect rational square is returned
exactly, and an argument whose real root is irrational (never produced in the
evaluations below) also maps to `none`. -/
def ratSqrt (q : ℚ) : Option ℚ :=
  if q < 0 then none
  else
    let n := natSqrtLinear q.num.toNat
    let d := natSqrtLinear q.den
    if q.num.toNat = n * n ∧ q.den = d * d then some ((n : ℚ) / (d : ℚ))
    else none

/-- `np.sqrt` lifted to possibly non-finite arguments: `sqrt(NaN)` is NaN. -/
def sqrtOpt (q : Option ℚ) : Option ℚ := q.bind ratSqrt

/-- `StandardDeviationIncrementalCalculator`: instance attributes
(lines 483-487). -/
structure StandardDeviationIncrementalCalculator where
  count : ℕ
  statistic : Option ℚ
  variance_calculator : VarianceIncrementalCalculator
deriving Repr, DecidableEq

namespace StandardDeviationIncrementalCalculator

/-- `__init__`: the default owned variance calculator uses `ddof=1.5`
(line 486). -/
def init : StandardDeviationIncrementalCalculator :=
  ⟨0, none, VarianceIncrementalCalculator.init (3 / 2) false⟩

/-- `append` (lines 489-491): `count += 1`; forward to the variance
calculator. -/
def append (s : StandardDeviationIncrementalCalculator) (x : ℚ) :
    StandardDeviationIncrementalCalculator :=
  ⟨s.count + 1, s.statistic, s.variance_calculator.append x⟩

/-- `get_statistic` (lines 493-494): `np.sqrt` of the owned variance
calculator's statistic. -/
def get_statistic (s : StandardDeviationIncrementalCalculator) : Option ℚ :=
  sqrtOpt s.variance_calculator.get_statistic

/-- `get_count` (inherited, lines 124-125). -/
def get_count (s : StandardDeviationIncrementalCalculator) : ℕ := s.count

end StandardDeviationIncrementalCalculator

/-- A fresh standard-deviation calculator fed `xs` in order. -/
def sd_fold (xs : List ℚ) : StandardDeviationIncrementalCalculator :=
  xs.foldl StandardDeviationIncrementalCalculator.append
    StandardDeviationIncrementalCalculator.init

lemma sd_fold_var (xs : List ℚ) :
    (sd_fold xs).variance_calculator = var_fold (3 / 2) false xs := by
  induction xs using List.reverseRecOn with
  | nil => rfl
  | append_singleton xs x ih =>
      simp [sd_fold, var_fold, List.foldl_append,
        StandardDeviationIncrementalCalculator.append] at ih ⊢
      rw [ih]

lemma sd_fold_count (xs : List ℚ) : (sd_fold xs).count = xs.length := by
  induction xs using List.reverseRecOn with
  | nil => rfl
  | append_singleton xs x ih =>
      simp [sd_fold, List.foldl_append,
        StandardDeviationIncrementalCalculator.append] at ih ⊢
      omega

/-- `HarmonicMeanIncrementalCalculator`: instance attributes
(lines 393-397). -/
structure HarmonicMeanIncrementalCalculator where
  count : ℕ
  statistic : Option ℚ
  ac : ArithmeticMeanIncrementalCalculator
deriving Repr, DecidableEq

namespace HarmonicMeanIncrementalCalculator

/-- `__init__` with an owned fresh arithmetic-mean calculator (the default). -/
def init : HarmonicMeanIncrementalCalculator :=
  ⟨0, none, ArithmeticMeanIncrementalCalculator.init⟩

/-- `append` (lines 399-400): feed `1/x` to the owned mean calculator.
Note the source does NOT increment `self._count` here (unlike every other
calculator in the module). A zero observation raises `ZeroDivisionError` in
Python; over `ℚ` the reciprocal of `0` is `0` (no claim feeds a zero). -/
def append (s : HarmonicMeanIncrementalCalculator) (x : ℚ) :
    HarmonicMeanIncrementalCalculator :=
  ⟨s.count, s.statistic, s.ac.append (1 / x)⟩

/-- `get_statistic` (lines 402-403): `1 / mean`; the reciprocal of a NaN mean
is NaN, and of a zero mean raises in Python (modelled `none`). -/
def get_statistic (s : HarmonicMeanIncrementalCalculator) : Option ℚ :=
  s.ac.get_statistic.bind (fun m => qdiv 1 m)

/-- `get_count` (inherited, lines 124-125). -/
def get_count (s : HarmonicMeanIncrementalCalculator) : ℕ := s.count

/-- `extend` (lines 133-134). -/
def extend (s : HarmonicMeanIncrementalCalculator) (xs : List ℚ) :
    HarmonicMeanIncrementalCalculator :=
  xs.foldl append s

end HarmonicMeanIncrementalCalculator

/-- C1: for every sequence of length at least 2, a
`VarianceIncrementalCalculator` with `ddof=1` (and `semi=False`) fed the
sequence in order via `append` returns from `get_statistic` the two-pass
sample variance `sum((x_i - mean)^2) / (n - 1)`, the Welford recurrence
`M2 += (x - mean_before) * (x - mean_after)` accumulating exactly the
two-pass sum of squared deviations. -/
theorem C1_variance_matches_two_pass (xs : List ℚ) (h : 2 ≤ xs.length) :
    (var_fold 1 false xs).get_statistic
      = some (two_pass_m2 xs / ((xs.length : ℚ) - 1)) := by
  have hne : xs ≠ [] := by
    intro hnil
    rw [hnil] at h
    simp at h
  have hcnt := var_fold_count 1 false xs
  have hdd := (var_fold_consts 1 false xs).1
  simp only [VarianceIncrementalCalculator.get_statistic, hcnt, hdd,
    var_fold_statistic 1 xs hne]
  rw [if_neg (by omega)]
  rfl

/-- Witness for C1 at the concrete input `[1, 2, 3]`. -/
theorem C1_variance_matches_two_pass_witness :
    2 ≤ ([1, 2, 3] : List ℚ).length ∧
      (var_fold 1 false [1, 2, 3]).get_statistic
        = some (two_pass_m2 [1, 2, 3]
            / ((([1, 2, 3] : List ℚ).length : ℚ) - 1)) :=
  ⟨by decide, C1_variance_matches_two_pass [1, 2, 3] (by decide)⟩

/-- C2: for every non-empty sequence, an `ArithmeticMeanIncrementalCalculator`
fed the sequence in order via `append` returns from `get_statistic` the
arithmetic mean (sum divided by length); and the very first observation
replaces the initial not-a-number statistic directly. -/
theorem C2_arithmetic_mean_correct (xs : List ℚ) (h : xs ≠ []) (x : ℚ) :
    (mean_fold xs).get_statistic = some (xs.sum / xs.length)
      ∧ ArithmeticMeanIncrementalCalculator.init.append x
          = ⟨1, some x⟩ := by
  refine ⟨?_, rfl⟩
  simpa [ArithmeticMeanIncrementalCalculator.get_statistic] using
    mean_fold_statistic xs h

/-- Witness for C2 at the concrete input `[1, 2, 3]` (and first observation
`5`). -/
theorem C2_arithmetic_mean_correct_witness :
    ([1, 2, 3] : List ℚ) ≠ [] ∧
      ((mean_fold [1, 2, 3]).get_statistic
          = some (([1, 2, 3] : List ℚ).sum / ([1, 2, 3] : List ℚ).length)
        ∧ ArithmeticMeanIncrementalCalculator.init.append 5 = ⟨1, some 5⟩) :=
  ⟨by decide, C2_arithmetic_mean_correct [1, 2, 3] (by decide) 5⟩

/-- C6 (the code, evaluated at the failing input): feeding one observation
(`2`) to a fresh `HarmonicMeanIncrementalCalculator` leaves `get_count()` at
`0`, not `1`: `append` (lines 399-400) forwards to the owned mean calculator
without ever incrementing `self._count`, so the inherited `get_count`
contract (lines 124-125, "number of observations since construction") is
violated. -/
theorem C6_harmonic_mean_count_not_incremented :
    (HarmonicMeanIncrementalCalculator.init.append 2).get_count = 0
      ∧ (HarmonicMeanIncrementalCalculator.init.append 2).get_count ≠ 1 :=
  ⟨rfl, by decide⟩

/-- C7: `VarianceIncrementalCalculator`, `CovarianceIncrementalCalculator`
and `StandardDeviationIncrementalCalculator` all report not-a-number from
`get_statistic()` (and do not raise) whenever fewer than 2 observations have
been appended since construction. -/
theorem C7_insufficient_data_nan (ddof : ℚ) (semi : Bool) (xs ys : List ℚ)
    (ps : List (ℚ × ℚ)) (h1 : xs.length < 2) (h2 : ps.length < 2)
    (h3 : ys.length < 2) :
    (var_fold ddof semi xs).get_statistic = none
      ∧ (cov_fold ddof ps).get_statistic = none
      ∧ (sd_fold ys).get_statistic = none := by
  refine ⟨?_, ?_, ?_⟩
  · simp [VarianceIncrementalCalculator.get_statistic, var_fold_count, h1]
  · simp [CovarianceIncrementalCalculator.get_statistic, cov_fold_count, h2]
  · simp [StandardDeviationIncrementalCalculator.get_statistic, sd_fold_var,
      VarianceIncrementalCalculator.get_statistic, var_fold_count, h3,
      sqrtOpt]

/-- Witness for C7 at the concrete inputs `[5]`, `[7]` and `[(1, 2)]`. -/
theorem C7_insufficient_data_nan_witness :
    (([5] : List ℚ).length < 2 ∧ ([(1, 2)] : List (ℚ × ℚ)).length < 2
        ∧ ([7] : List ℚ).length < 2)
      ∧ ((var_fold 1 false [5]).get_statistic = none
        ∧ (cov_fold 1 [(1, 2)]).get_statistic = none
        ∧ (sd_fold [7]).get_statistic = none) :=
  ⟨⟨by decide, by decide, by decide⟩,
    C7_insufficient_data_nan 1 false [5] [7] [(1, 2)]
      (by decide) (by decide) (by decide)⟩

/-- The instance attributes bound on a `ControlVariateIncrementalCalculator`:
`_count` and `_statistic` from `AbstractCalculator.__init__` (lines 120-122)
and the five calculators assigned in `__init__` (lines 570-579). -/
def controlVariateInstanceAttributes : List String :=
  ["_count", "_statistic", "_calculator", "_control_variate_calculator",
   "_control_variate_mean_calculator",
   "_control_variate_variance_calculator", "_covariance_calculator"]

/-- The attribute names `ControlVariateIncrementalCalculator.reset`
(lines 600-607) reads from `self`, in execution order (the writes to
`_count` and `_statistic` always succeed and are omitted; line 606 reads
`self._control_variate_variance`, a name never assigned — the assigned
attribute is `_control_variate_variance_calculator`). -/
def controlVariateResetAttributeReads : List String :=
  ["_calculator", "_control_variate_calculator",
   "_control_variate_mean_calculator", "_control_variate_variance",
   "_covariance_calculator"]

/-- Python attribute lookup for a method executing a sequence of `self.<a>`
reads: it raises `AttributeError` at the first name not bound on the
instance, and completes otherwise. -/
def pythonAttributeOutcome (owned reads : List String) : Except String Unit :=
  match reads.find? (fun a => ! owned.contains a) with
  | some a => Except.error a
  | none => Except.ok ()

/-- C5 (the code, evaluated at the failing input): calling `reset()` on a
`ControlVariateIncrementalCalculator` raises `AttributeError` on the
misspelled attribute `_control_variate_variance` (line 606) instead of
succeeding and resetting all owned estimators, contradicting the claim (and
the `reset` contract of the spec) for this calculator. -/
theorem C5_control_variate_reset_raises :
    pythonAttributeOutcome controlVariateInstanceAttributes
        controlVariateResetAttributeReads
      = Except.error "_control_variate_variance" := by
  rfl

/-- `StandardizedMomentIncrementalCalculator`: instance attributes
(lines 290-299), with the default owned calculators (an arithmetic mean, a
standard deviation, and an outer arithmetic mean). -/
structure StandardizedMomentIncrementalCalculator where
  n : ℕ
  inner_average_calculator : ArithmeticMeanIncrementalCalculator
  inner_standard_deviation_calculator : StandardDeviationIncrementalCalculator
  outer_average_calculator : ArithmeticMeanIncrementalCalculator
  count : ℕ
deriving Repr, DecidableEq

namespace StandardizedMomentIncrementalCalculator

/-- `__init__` with the default owned calculators. -/
def init (n : ℕ) : StandardizedMomentIncrementalCalculator :=
  ⟨n, ArithmeticMeanIncrementalCalculator.init,
    StandardDeviationIncrementalCalculator.init,
    ArithmeticMeanIncrementalCalculator.init, 0⟩

/-- `append` (lines 304-308): update the inner mean and the inner standard
deviation with `x`, then feed
`np.power((x - inner_mean.get_statistic() / inner_sd.get_statistic()), n)`
to the outer mean. Note the parenthesization of the source expression: the
division binds tighter than the subtraction, so the fed value is
`(x - mean/sd)**n`. A NaN standard deviation (count below 2), or a zero one
(whose quotient is non-finite), makes the fed value non-finite (`none`). -/
def append (s : StandardizedMomentIncrementalCalculator) (x : ℚ) :
    StandardizedMomentIncrementalCalculator :=
  let inner1 := s.inner_average_calculator.append x
  let sd1 := s.inner_standard_deviation_calculator.append x
  let fed : Option ℚ := do
    let m ← inner1.get_statistic
    let sd ← sd1.get_statistic
    let r ← qdiv m sd
    pure ((x - r) ^ s.n)
  ⟨s.n, inner1, sd1, s.outer_average_calculator.appendOpt fed, s.count + 1⟩

/-- The update the spec prescribes for the standardized moment of order `n`
("Feeds `((x − inner_mean)/inner_sd)**n` to the outer mean"), a second
definition written from the spec for comparison with the source translation
`append` above. -/
def append_per_spec (s : StandardizedMomentIncrementalCalculator) (x : ℚ) :
    StandardizedMomentIncrementalCalculator :=
  let inner1 := s.inner_average_calculator.append x
  let sd1 := s.inner_standard_deviation_calculator.append x
  let fed : Option ℚ := do
    let m ← inner1.get_statistic
    let sd ← sd1.get_statistic
    let r ← qdiv (x - m) sd
    pure (r ^ s.n)
  ⟨s.n, inner1, sd1, s.outer_average_calculator.appendOpt fed, s.count + 1⟩

/-- `get_statistic` (lines 301-302): the outer mean's statistic. -/
def get_statistic (s : StandardizedMomentIncrementalCalculator) : Option ℚ :=
  s.outer_average_calculator.get_statistic

end StandardizedMomentIncrementalCalculator

/-- A fresh standardized-moment calculator of order `n` fed `xs` in order. -/
def std_mom_fold (n : ℕ) (xs : List ℚ) :
    StandardizedMomentIncrementalCalculator :=
  xs.foldl StandardizedMomentIncrementalCalculator.append
    (StandardizedMomentIncrementalCalculator.init n)

/-- The same fold under the spec's update formula. -/
def std_mom_spec_fold (n : ℕ) (xs : List ℚ) :
    StandardizedMomentIncrementalCalculator :=
  xs.foldl StandardizedMomentIncrementalCalculator.append_per_spec
    (StandardizedMomentIncrementalCalculator.init n)

/-- C4 (the code, evaluated at the failing input): feeding `[0, 3]` to a
`StandardizedMomentIncrementalCalculator` of order `n = 1` yields statistic
`5/2` — at the second observation the inner mean is `3/2` and the inner
standard deviation `3` (the owned variance calculator uses `ddof=1.5`), and
the source expression `(x - mean/sd)**n` gives `3 - (3/2)/3 = 5/2` — whereas
the claimed update `((x - mean)/sd)**n` gives `(3 - 3/2)/3 = 1/2`. -/
theorem C4_standardized_moment_misparenthesized :
    (std_mom_fold 1 [0, 3]).get_statistic = some (5 / 2)
      ∧ (std_mom_spec_fold 1 [0, 3]).get_statistic = some (1 / 2)
      ∧ (5 / 2 : ℚ) ≠ 1 / 2 := by
  have h0 : Int.toNat (9 : ℤ) = 9 := rfl
  have h1 : natSqrtLinear 9 = 3 := by decide
  have h2 : natSqrtLinear 1 = 1 := by decide
  refine ⟨?_, ?_, by norm_num⟩ <;>
    norm_num [std_mom_fold, std_mom_spec_fold,
      StandardizedMomentIncrementalCalculator.init,
      StandardizedMomentIncrementalCalculator.append,
      StandardizedMomentIncrementalCalculator.append_per_spec,
      StandardizedMomentIncrementalCalculator.get_statistic,
      StandardDeviationIncrementalCalculator.init,
      StandardDeviationIncrementalCalculator.append,
      StandardDeviationIncrementalCalculator.get_statistic,
      VarianceIncrementalCalculator.init,
      VarianceIncrementalCalculator.append,
      VarianceIncrementalCalculator.get_statistic,
      ArithmeticMeanIncrementalCalculator.append,
      ArithmeticMeanIncrementalCalculator.appendOpt,
      ArithmeticMeanIncrementalCalculator.init,
      ArithmeticMeanIncrementalCalculator.get_statistic,
      sqrtOpt, ratSqrt, qdiv, h0, h1, h2]

/-- `np.quantile(xs, 0.5)` with numpy's default linear interpolation, as
called by the factory on line 676: sort the data; with `n = len(xs)` and
virtual index `h = (n-1)*0.5`, return
`s[floor(h)] + (h - floor(h)) * (s[ceil(h)] - s[floor(h)])`
(`ceil(h) = n/2` rounding down, `floor(h) = (n-1)/2` rounding down). -/
def np_quantile_half (xs : List ℚ) : ℚ :=
  let s := List.insertionSort (· ≤ ·) xs
  let n := xs.length
  let lo := (n - 1) / 2
  let hi := n / 2
  let g : ℚ := ((n : ℚ) - 1) / 2 - (((n - 1) / 2 : ℕ) : ℚ)
  s.getD lo 0 + g * (s.getD hi 0 - s.getD lo 0)

/-- The median of a non-empty list: the middle element of the sorted list
when the length is odd, the average of the two middle elements when it is
even (the 0.5-quantile). -/
def list_median (xs : List ℚ) : ℚ :=
  let s := List.insertionSort (· ≤ ·) xs
  if xs.length % 2 = 1 then s.getD (xs.length / 2) 0
  else (s.getD (xs.length / 2 - 1) 0 + s.getD (xs.length / 2) 0) / 2

lemma np_quantile_half_eq_median (xs : List ℚ) (h : xs ≠ []) :
    np_quantile_half xs = list_median xs := by
  have hn : 1 ≤ xs.length := List.length_pos.mpr h
  unfold np_quantile_half list_median
  dsimp only
  rcases Nat.even_or_odd xs.length with ⟨m, hm⟩ | ⟨m, hm⟩
  · have hm1 : 1 ≤ m := by omega
    have hmod : xs.length % 2 = 0 := by omega
    have hlo : (xs.length - 1) / 2 = m - 1 := by omega
    have hhi : xs.length / 2 = m := by omega
    have hcast : (((m - 1 : ℕ)) : ℚ) = (m : ℚ) - 1 := by
      push_cast [hm1]
      ring
    rw [hlo, hhi, hm]
    rw [if_neg (by omega)]
    have hg : ((((m + m : ℕ)) : ℚ) - 1) / 2 - (((m - 1 : ℕ)) : ℚ)
        = 1 / 2 := by
      rw [hcast]
      push_cast
      ring
    rw [hg]
    ring
  · have hmod : xs.length % 2 = 1 := by omega
    have hlo : (xs.length - 1) / 2 = m := by omega
    have hhi : xs.length / 2 = m := by omega
    rw [hlo, hhi, hm, if_pos (by omega)]
    have hg : ((((2 * m + 1 : ℕ)) : ℚ) - 1) / 2 - ((m : ℕ) : ℚ) = 0 := by
      push_cast
      ring
    rw [hg]
    ring

/-- `WindowCalculator` configured with a batch `function` and no inner
calculator (lines 609-616): the constructor-held configuration. -/
structure WindowFunctionCalculator where
  window_size : Option ℕ
  function : List ℚ → Option ℚ

/-- The mutable state of a function-configured `WindowCalculator`. -/
structure WindowFunctionState where
  count : ℕ
  window : List ℚ
deriving Repr, DecidableEq

namespace WindowFunctionCalculator

/-- Fresh state: `_count = 0`, `_window = []`. -/
def start : WindowFunctionState := ⟨0, []⟩

/-- `append` (lines 618-625): push `x`; evict from the front while the buffer
exceeds `window_size` (the `while` loop drops `len - window_size` leading
elements, none when `window_size` is unset); the inner-calculator replay is
skipped since `_calculator is None`. -/
def append (c : WindowFunctionCalculator) (s : WindowFunctionState) (x : ℚ) :
    WindowFunctionState :=
  let w := s.window ++ [x]
  let w := match c.window_size with
    | none => w
    | some k => w.drop (w.length - k)
  ⟨s.count + 1, w⟩

/-- `get_statistic` (lines 627-632): apply the batch function to the buffer. -/
def get_statistic (c : WindowFunctionCalculator) (s : WindowFunctionState) :
    Option ℚ :=
  c.function s.window

end WindowFunctionCalculator

set_option linter.unusedVariables false in
/-- `make_quantile_calculator` (lines 675-676): a `WindowCalculator` whose
batch function is `lambda xs: np.quantile(xs, .5) if len(xs) > 0 else np.nan`.
The `quantile` parameter does not occur in the body. -/
def make_quantile_calculator (quantile : ℚ) (window_size : Option ℕ) :
    WindowFunctionCalculator :=
  { window_size := window_size,
    function := fun xs =>
      if 0 < xs.length then some (np_quantile_half xs) else none }

/-- `make_median_calculator` (lines 678-679): delegates to
`make_quantile_calculator(quantile=.5, ...)`. -/
def make_median_calculator (window_size : Option ℕ) :
    WindowFunctionCalculator :=
  make_quantile_calculator (1 / 2) window_size

/-- C10: `make_quantile_calculator(quantile=q, window_size=w)` ignores `q`
entirely: the calculator it returns is literally the one
`make_median_calculator(window_size=w)` returns, for every `q`, and on every
non-empty buffer its batch function computes the 0.5-quantile (the median)
of the buffer. -/
theorem C10_quantile_ignores_quantile (q : ℚ) (w : Option ℕ) (xs : List ℚ)
    (h : xs ≠ []) :
    make_quantile_calculator q w = make_median_calculator w
      ∧ (make_quantile_calculator q w).function xs = some (list_median xs) := by
  refine ⟨rfl, ?_⟩
  simp only [make_quantile_calculator, List.length_pos.mpr h, if_pos,
    np_quantile_half_eq_median xs h]

/-- Witness for C10 at `q = 1/4`, `w = 3`, buffer `[3, 1, 2]`. -/
theorem C10_quantile_ignores_quantile_witness :
    ([3, 1, 2] : List ℚ) ≠ [] ∧
      (make_quantile_calculator (1 / 4) (some 3) = make_median_calculator (some 3)
        ∧ (make_quantile_calculator (1 / 4) (some 3)).function [3, 1, 2]
            = some (list_median [3, 1, 2])) :=
  ⟨by decide, C10_quantile_ignores_quantile (1 / 4) (some 3) [3, 1, 2] (by decide)⟩

/-- The estimator contract of the calculator module over an arbitrary state
type (`AbstractCalculator`, lines 119-138, as the spec's polymorphic
`IncrementalEstimator` interface): a freshly-constructed state, `append`, and
`get_statistic`; `reset()` restores the freshly-constructed state `start`. -/
structure IncrementalEstimator (σ : Type) where
  start : σ
  append : σ → ℚ → σ
  get_statistic : σ → Option ℚ

/-- `extend` (lines 133-134) over the interface: append each element in
order. -/
def IncrementalEstimator.extend {σ : Type} (E : IncrementalEstimator σ) (s : σ) (xs : List ℚ) : σ :=
  xs.foldl E.append s

/-- The state of a `WindowCalculator` configured with an inner calculator
(lines 609-616): `_count`, the `_window` buffer, and the owned calculator. -/
structure WindowCalculatorState (σ : Type) where
  count : ℕ
  window : List ℚ
  calculator : σ

namespace WindowCalculator

/-- Fresh state (lines 610-616). -/
def start {σ : Type} (E : IncrementalEstimator σ) : WindowCalculatorState σ :=
  ⟨0, [], E.start⟩

/-- `append` (lines 618-625): `count += 1`; push `x` onto the buffer; the
`while` loop evicts from the front until the buffer length is at most
`window_size` (dropping `len - window_size` leading elements; no eviction
when `window_size` is unset); then `self._calculator.reset()` followed by
`self._calculator.extend(self._window)` — a full replay of the buffer from
the freshly-reset (i.e. freshly-constructed) inner state. -/
def append {σ : Type} (E : IncrementalEstimator σ) (window_size : Option ℕ)
    (s : WindowCalculatorState σ) (x : ℚ) : WindowCalculatorState σ :=
  let w := s.window ++ [x]
  let w := match window_size with
    | none => w
    | some k => w.drop (w.length - k)
  ⟨s.count + 1, w, E.extend E.start w⟩

/-- `get_statistic` (lines 627-632) in the inner-calculator configuration. -/
def get_statistic {σ : Type} (E : IncrementalEstimator σ)
    (s : WindowCalculatorState σ) : Option ℚ :=
  E.get_statistic s.calculator

end WindowCalculator

/-- A fresh window calculator wrapping `E` with the given window size, fed
`xs` in order. -/
def window_fold {σ : Type} (E : IncrementalEstimator σ) (window_size : Option ℕ)
    (xs : List ℚ) : WindowCalculatorState σ :=
  xs.foldl (WindowCalculator.append E window_size) (WindowCalculator.start E)

lemma window_fold_append {σ : Type} (E : IncrementalEstimator σ) (k : Option ℕ)
    (xs : List ℚ) (x : ℚ) :
    window_fold E k (xs ++ [x])
      = WindowCalculator.append E k (window_fold E k xs) x := by
  simp [window_fold, List.foldl_append]

lemma window_fold_calculator {σ : Type} (E : IncrementalEstimator σ) (k : Option ℕ)
    (xs : List ℚ) :
    (window_fold E k xs).calculator
      = E.extend E.start (window_fold E k xs).window := by
  induction xs using List.reverseRecOn with
  | nil => rfl
  | append_singleton xs x ih =>
      rw [window_fold_append]
      rfl

/-- The buffer of a window calculator with `window_size = k ≥ 1` after
feeding `xs` is the last `min k (len xs)` elements of `xs`,
i.e. `xs.drop (xs.length - k)`. -/
lemma window_fold_window {σ : Type} (E : IncrementalEstimator σ) (k : ℕ) (hk : 1 ≤ k)
    (xs : List ℚ) :
    (window_fold E (some k) xs).window = xs.drop (xs.length - k) := by
  induction xs using List.reverseRecOn with
  | nil => simp [window_fold, WindowCalculator.start]
  | append_singleton xs x ih =>
      rw [window_fold_append, WindowCalculator.append]
      simp only [ih]
      rcases Nat.lt_or_ge xs.length k with hlt | hge
      · have h0 : xs.length - k = 0 := by omega
        have h1 : (xs.drop 0 ++ [x]).length - k = 0 := by
          rw [List.drop_zero, List.length_append]
          simp only [List.length_cons, List.length_nil]
          omega
        simp [h0, h1]
      · have hw : (xs.drop (xs.length - k)).length = k := by
          rw [List.length_drop]
          omega
        have hL : (xs.drop (xs.length - k) ++ [x]).length - k = 1 := by
          rw [List.length_append, hw]
          simp only [List.length_cons, List.length_nil]
          omega
        have hR : (xs ++ [x]).length - k = (xs.length - k) + 1 := by
          rw [List.length_append]
          simp only [List.length_cons, List.length_nil]
          omega
        rw [hL, hR, List.drop_append_of_le_length (by omega),
          List.drop_drop, List.drop_append_of_le_length (by omega)]

set_option linter.unusedVariables false in
/-- C3: a `WindowCalculator` wrapping an estimator `E` with
`window_size = k ≥ 1`, fed a sequence `xs` longer than `k` via `append`,
returns from `get_statistic` the same value as a fresh instance of `E` fed
only the last `k` elements of `xs` (`xs.drop (xs.length - k)`) in order
(the buffer characterization holds for any `xs`; `k < xs.length` is the
claim's hypothesis). -/
theorem C3_window_equals_last_k {σ : Type} (E : IncrementalEstimator σ) (k : ℕ)
    (xs : List ℚ) (h1 : 1 ≤ k) (h2 : k < xs.length) :
    WindowCalculator.get_statistic E (window_fold E (some k) xs)
      = E.get_statistic (E.extend E.start (xs.drop (xs.length - k))) := by
  rw [WindowCalculator.get_statistic, window_fold_calculator,
    window_fold_window E k h1 xs]

/-- The arithmetic-mean calculator packaged behind the estimator
interface. -/
def arithmetic_mean_estimator : IncrementalEstimator ArithmeticMeanIncrementalCalculator :=
  ⟨ArithmeticMeanIncrementalCalculator.init,
    ArithmeticMeanIncrementalCalculator.append,
    ArithmeticMeanIncrementalCalculator.get_statistic⟩

/-- Witness for C3: the arithmetic mean over a window of size 2, fed
`[1, 2, 3, 4]`. -/
theorem C3_window_equals_last_k_witness :
    (1 ≤ 2 ∧ 2 < ([1, 2, 3, 4] : List ℚ).length) ∧
      WindowCalculator.get_statistic arithmetic_mean_estimator
          (window_fold arithmetic_mean_estimator (some 2) [1, 2, 3, 4])
        = arithmetic_mean_estimator.get_statistic
            (arithmetic_mean_estimator.extend arithmetic_mean_estimator.start
              (([1, 2, 3, 4] : List ℚ).drop (([1, 2, 3, 4] : List ℚ).length - 2))) :=
  ⟨⟨by decide, by decide⟩,
    C3_window_equals_last_k arithmetic_mean_estimator 2 [1, 2, 3, 4]
      (by decide) (by decide)⟩

/-- The external changepoint-detection collaborator consumed by
`AutoResettingIncrementalCalculator` (spec section 6): `update(observation)`
and `statistic()`, abstracted over its state type. -/
structure ChangepointDetector (δ : Type) where
  update : δ → ℚ → δ
  statistic : δ → ℚ

/-- The state of an `AutoResettingIncrementalCalculator` (lines 164-174):
`_count`, `_last_auto_reset_count` (initially `None`), the live changepoint
detector, and the owned target calculator. -/
structure AutoResettingState (δ σ : Type) where
  count : ℕ
  last_auto_reset_count : Option ℕ
  changepoint_detector : δ
  calculator : σ

namespace AutoResettingIncrementalCalculator

/-- Freshly constructed state, with `d0` the detector's initial state. -/
def start {δ σ : Type} (E : IncrementalEstimator σ) (d0 : δ) :
    AutoResettingState δ σ :=
  ⟨0, none, d0, E.start⟩

/-- The reset condition of `append` (line 182), evaluated after `count += 1`
and the detector update:
`(last is None or count - last >= 10) and detector.statistic() > threshold`
(Python integer subtraction, hence the `ℤ` cast). -/
def append_fires {δ : Type} (D : ChangepointDetector δ) (threshold : ℚ)
    (count1 : ℕ) (last : Option ℕ) (det1 : δ) : Bool :=
  (match last with
   | none => true
   | some c => decide ((count1 : ℤ) - (c : ℤ) ≥ 10))
    && decide (D.statistic det1 > threshold)

/-- `append` (lines 179-186): `count += 1`; feed `x` to the detector; if the
reset condition holds, reset the target calculator (to its
freshly-constructed state) and record `count` as the last auto-reset point
(the diagnostic `print` is a side effect with no model state); then feed `x`
to the (possibly just-reset) target calculator. -/
def append {δ σ : Type} (D : ChangepointDetector δ) (E : IncrementalEstimator σ)
    (threshold : ℚ) (s : AutoResettingState δ σ) (x : ℚ) :
    AutoResettingState δ σ :=
  let count1 := s.count + 1
  let det1 := D.update s.changepoint_detector x
  if append_fires D threshold count1 s.last_auto_reset_count det1 then
    ⟨count1, some count1, det1, E.append E.start x⟩
  else
    ⟨count1, s.last_auto_reset_count, det1, E.append s.calculator x⟩

/-- One observation of a run, also logging the observation count at which an
auto-reset fired (if one did). -/
def run_step {δ σ : Type} (D : ChangepointDetector δ)
    (E : IncrementalEstimator σ) (threshold : ℚ)
    (p : AutoResettingState δ σ × List ℕ) (x : ℚ) :
    AutoResettingState δ σ × List ℕ :=
  let s := p.1
  let count1 := s.count + 1
  let det1 := D.update s.changepoint_detector x
  if append_fires D threshold count1 s.last_auto_reset_count det1 then
    (append D E threshold s x, p.2 ++ [count1])
  else
    (append D E threshold s x, p.2)

/-- The observation counts at which a fresh auto-resetting calculator fed
`xs` in order auto-reset its target calculator. -/
def auto_reset_points {δ σ : Type} (D : ChangepointDetector δ)
    (E : IncrementalEstimator σ) (threshold : ℚ) (d0 : δ) (xs : List ℚ) :
    List ℕ :=
  (xs.foldl (run_step D E threshold) (start E d0, [])).2

/-- The invariant tying the logged reset points to
`_last_auto_reset_count`. -/
def run_inv {δ σ : Type} (p : AutoResettingState δ σ × List ℕ) : Prop :=
  p.1.last_auto_reset_count = p.2.getLast?
    ∧ List.Chain' (fun a b => a + 10 ≤ b) p.2

lemma run_step_preserves_inv {δ σ : Type} (D : ChangepointDetector δ)
    (E : IncrementalEstimator σ) (threshold : ℚ)
    (p : AutoResettingState δ σ × List ℕ) (x : ℚ) (h : run_inv p) :
    run_inv (run_step D E threshold p x) := by
  obtain ⟨hlast, hchain⟩ := h
  unfold run_step
  by_cases hf : append_fires D threshold (p.1.count + 1)
      p.1.last_auto_reset_count (D.update p.1.changepoint_detector x) = true
  · simp only [hf, if_true]
    constructor
    · simp [run_inv, AutoResettingIncrementalCalculator.append, hf,
        List.getLast?_concat]
    · cases hl : p.1.last_auto_reset_count with
      | none =>
          have hnil : p.2 = [] := by
            rw [hl] at hlast
            exact List.getLast?_eq_none_iff.mp hlast.symm
          simp [hnil, List.chain'_singleton]
      | some c =>
          have hc : (p.1.count + 1 : ℤ) - (c : ℤ) ≥ 10 := by
            unfold append_fires at hf
            rw [hl] at hf
            simp only [Bool.and_eq_true, decide_eq_true_eq] at hf
            exact hf.1
          have hc10 : c + 10 ≤ p.1.count + 1 := by omega
          refine List.Chain'.append hchain (List.chain'_singleton _) ?_
          intro a ha b hb
          rw [hl] at hlast
          simp only [Option.mem_def] at ha hb
          have hac : a = c := (Option.some_inj.mp (hlast.trans ha)).symm
          have hbc : b = p.1.count + 1 := by
            simp only [List.head?_cons] at hb
            exact Option.some_inj.mp hb.symm
          omega
  · simp only [hf, if_false]
    exact ⟨by simpa [AutoResettingIncrementalCalculator.append, hf]
      using hlast, hchain⟩

lemma run_fold_inv {δ σ : Type} (D : ChangepointDetector δ)
    (E : IncrementalEstimator σ) (threshold : ℚ) (xs : List ℚ) :
    ∀ p, run_inv p → run_inv (xs.foldl (run_step D E threshold) p) := by
  induction xs with
  | nil => exact fun p h => h
  | cons x xs ih =>
      exact fun p h => ih _ (run_step_preserves_inv D E threshold p x h)

end AutoResettingIncrementalCalculator

/-- C9: for every changepoint detector, threshold and input sequence, a fresh
`AutoResettingIncrementalCalculator` never auto-resets its target calculator
twice fewer than 10 observations apart: consecutive logged reset counts are
at least 10 apart, because `append` resets only when the detector's surprise
statistic exceeds the threshold AND (no auto-reset has occurred yet, or at
least 10 observations have elapsed since the recorded last one). -/
theorem C9_auto_reset_hysteresis {δ σ : Type} (D : ChangepointDetector δ)
    (E : IncrementalEstimator σ) (threshold : ℚ) (d0 : δ) (xs : List ℚ) :
    List.Chain' (fun a b => a + 10 ≤ b)
      (AutoResettingIncrementalCalculator.auto_reset_points D E threshold d0 xs) :=
  (AutoResettingIncrementalCalculator.run_fold_inv D E threshold xs
    (AutoResettingIncrementalCalculator.start E d0, [])
    ⟨rfl, List.chain'_nil⟩).2

/-- `ControlVariateIncrementalCalculator` (lines 569-607) in the
configuration of the claim: it wraps an arithmetic-mean target and owns the
default control-variate mean, variance (`ddof=1`) and covariance (`ddof=1`)
calculators. The optional `_control_variate_calculator` is `None`: the
control variate is supplied with each call, so the `control_variate is None`
branch of `append` is never taken. -/
structure ControlVariateIncrementalCalculator where
  count : ℕ
  statistic : Option ℚ
  calculator : ArithmeticMeanIncrementalCalculator
  control_variate_mean_calculator : ArithmeticMeanIncrementalCalculator
  control_variate_variance_calculator : VarianceIncrementalCalculator
  covariance_calculator : CovarianceIncrementalCalculator
deriving Repr, DecidableEq

namespace ControlVariateIncrementalCalculator

/-- `__init__` (lines 570-579) with the default owned calculators. -/
def init : ControlVariateIncrementalCalculator :=
  ⟨0, none, ArithmeticMeanIncrementalCalculator.init,
    ArithmeticMeanIncrementalCalculator.init,
    VarianceIncrementalCalculator.init 1 false,
    CovarianceIncrementalCalculator.init 1⟩

/-- The value `append` (lines 581-594) feeds to the wrapped target when the
control variate `y` is supplied: after updating the owned mean, variance and
covariance calculators with `y` (resp. `(x, y)`),
`modified_x = x - (covariance/control_variate_variance)*(y - control_variate_mean)`;
when any of the three statistics is NaN, or the variance is zero (making the
quotient non-finite), `modified_x` is non-finite and the
`if not np.isfinite(modified_x): modified_x = x` fallback feeds raw `x`. -/
def adjusted_value (s : ControlVariateIncrementalCalculator) (x y : ℚ) : ℚ :=
  let control_variate_mean :=
    (s.control_variate_mean_calculator.append y).get_statistic
  let control_variate_variance :=
    (s.control_variate_variance_calculator.append y).get_statistic
  let covariance := (s.covariance_calculator.append (x, y)).get_statistic
  let modified_x : Option ℚ := do
    let c ← covariance
    let v ← control_variate_variance
    let r ← qdiv c v
    let m ← control_variate_mean
    pure (x - r * (y - m))
  modified_x.getD x

/-- `append` (lines 581-595) with the control variate `y` supplied: update
the owned control-variate mean, variance and covariance calculators, feed
the adjusted value to the wrapped target, `count += 1`. -/
def append (s : ControlVariateIncrementalCalculator) (x y : ℚ) :
    ControlVariateIncrementalCalculator :=
  ⟨s.count + 1, s.statistic, s.calculator.append (s.adjusted_value x y),
    s.control_variate_mean_calculator.append y,
    s.control_variate_variance_calculator.append y,
    s.covariance_calculator.append (x, y)⟩

/-- `get_statistic` (lines 597-598): the wrapped target's statistic. -/
def get_statistic (s : ControlVariateIncrementalCalculator) : Option ℚ :=
  s.calculator.get_statistic

end ControlVariateIncrementalCalculator

/-- A fresh control-variate calculator fed each observation `x` via
`append(x, control_variate=x)` (the perfectly correlated case `y = x`). -/
def cv_fold_diag (xs : List ℚ) : ControlVariateIncrementalCalculator :=
  xs.foldl (fun s x => s.append x x) ControlVariateIncrementalCalculator.init

/-- The same run, also logging the values fed to the wrapped target. -/
def cv_run (xs : List ℚ) : ControlVariateIncrementalCalculator × List ℚ :=
  xs.foldl
    (fun (p : ControlVariateIncrementalCalculator × List ℚ) x =>
      (p.1.append x x, p.2 ++ [p.1.adjusted_value x x]))
    (ControlVariateIncrementalCalculator.init, [])

/-- The values the run feeds to the wrapped target, in order. -/
def cv_fed_log (xs : List ℚ) : List ℚ :=
  (cv_run xs).2

/-- C8 is false on the code: feeding `[0, 2, 4]` (nonzero variance) via
`append(x, control_variate=x)` gives `get_statistic() = 1.0`, while the
control variate's mean is `2.0`. The adjusted values fed to the wrapped mean
are the running means `[0, 1, 2]` (the first raw via the non-finite
fallback), and their average is not the final mean. -/
theorem C8_perfect_correlation_counterexample :
    (cv_fold_diag [0, 2, 4]).get_statistic = some 1
      ∧ (cv_fold_diag [0, 2, 4]).control_variate_mean_calculator.get_statistic
          = some 2
      ∧ (cv_fold_diag
          [0, 2, 4]).control_variate_variance_calculator.get_statistic
          = some 4
      ∧ ¬ (cv_fold_diag [0, 2, 4]).get_statistic
          = (cv_fold_diag [0, 2, 4]).control_variate_mean_calculator.get_statistic := by
  have h : (cv_fold_diag [0, 2, 4]).get_statistic = some 1
      ∧ (cv_fold_diag [0, 2, 4]).control_variate_mean_calculator.get_statistic
          = some 2
      ∧ (cv_fold_diag
          [0, 2, 4]).control_variate_variance_calculator.get_statistic
          = some 4 := by
    norm_num [cv_fold_diag, ControlVariateIncrementalCalculator.init,
      ControlVariateIncrementalCalculator.append,
      ControlVariateIncrementalCalculator.adjusted_value,
      ControlVariateIncrementalCalculator.get_statistic,
      VarianceIncrementalCalculator.init, VarianceIncrementalCalculator.append,
      VarianceIncrementalCalculator.get_statistic,
      CovarianceIncrementalCalculator.init,
      CovarianceIncrementalCalculator.append,
      CovarianceIncrementalCalculator.get_statistic,
      ArithmeticMeanIncrementalCalculator.append,
      ArithmeticMeanIncrementalCalculator.init,
      ArithmeticMeanIncrementalCalculator.get_statistic, qdiv]
  refine ⟨h.1, h.2.1, h.2.2, ?_⟩
  rw [h.1, h.2.1]
  simp

lemma cv_fold_diag_append (xs : List ℚ) (x : ℚ) :
    cv_fold_diag (xs ++ [x]) = (cv_fold_diag xs).append x x := by
  simp [cv_fold_diag, List.foldl_append]

lemma cv_run_fst (xs : List ℚ) : (cv_run xs).1 = cv_fold_diag xs := by
  induction xs using List.reverseRecOn with
  | nil => rfl
  | append_singleton xs x ih =>
      simp only [cv_run, List.foldl_append, List.foldl_cons, List.foldl_nil]
      rw [cv_fold_diag_append, ← ih]
      rfl

lemma cv_fed_log_append (xs : List ℚ) (x : ℚ) :
    cv_fed_log (xs ++ [x])
      = cv_fed_log xs ++ [(cv_fold_diag xs).adjusted_value x x] := by
  simp only [cv_fed_log, cv_run, List.foldl_append, List.foldl_cons,
    List.foldl_nil]
  rw [show (xs.foldl
      (fun (p : ControlVariateIncrementalCalculator × List ℚ) x =>
        (p.1.append x x, p.2 ++ [p.1.adjusted_value x x]))
      (ControlVariateIncrementalCalculator.init, [])) = cv_run xs from rfl,
    cv_run_fst]

lemma cov_fold_diag_avg (ddof : ℚ) (xs : List ℚ) :
    (cov_fold ddof (xs.map (fun x => (x, x)))).average_calculator1
        = mean_fold xs
      ∧ (cov_fold ddof (xs.map (fun x => (x, x)))).average_calculator2
        = mean_fold xs := by
  induction xs using List.reverseRecOn with
  | nil => exact ⟨rfl, rfl⟩
  | append_singleton xs x ih =>
      rw [List.map_append, List.map_cons, List.map_nil, cov_fold_append,
        mean_fold_append]
      exact ⟨by rw [CovarianceIncrementalCalculator.append, ← ih.1],
        by rw [CovarianceIncrementalCalculator.append, ← ih.2]⟩

/-- Fed the diagonal pairs `(x, x)`, the covariance accumulator coincides
with the Welford variance accumulator: from the second observation on its
statistic is the two-pass sum of squared deviations. -/
lemma cov_fold_diag_statistic (xs : List ℚ) (h : 2 ≤ xs.length) :
    (cov_fold 1 (xs.map (fun x => (x, x)))).statistic
      = some (two_pass_m2 xs) := by
  induction xs using List.reverseRecOn with
  | nil => simp at h
  | append_singleton xs x ih =>
      rcases Nat.lt_or_ge xs.length 2 with hlt | hge
      · -- the appended element is the second observation: xs = [a]
        have hx : xs.length = 1 := by
          simp only [List.length_append, List.length_cons, List.length_nil] at h
          omega
        obtain ⟨a, rfl⟩ : ∃ a, xs = [a] := by
          cases xs with
          | nil => simp at hx
          | cons a t =>
              cases t with
              | nil => exact ⟨a, rfl⟩
              | cons b t => simp at hx
        simp only [List.map_cons, List.map_nil, List.cons_append,
          List.nil_append]
        show (CovarianceIncrementalCalculator.append
          (CovarianceIncrementalCalculator.append
            (CovarianceIncrementalCalculator.init 1) (a, a)) (x, x)).statistic
            = some (two_pass_m2 [a, x])
        simp only [CovarianceIncrementalCalculator.append,
          CovarianceIncrementalCalculator.init,
          ArithmeticMeanIncrementalCalculator.init,
          ArithmeticMeanIncrementalCalculator.append,
          ArithmeticMeanIncrementalCalculator.get_statistic, two_pass_m2,
          List.map_cons, List.map_nil, List.sum_cons, List.sum_nil,
          List.length_cons, List.length_nil, Option.map_none, Option.map_some]
        simp only [Option.pure_def, Option.bind_none, Option.bind_some,
          Option.some_bind, Option.none_bind]
        norm_num
        ring
      · -- inductive step: both means agree with the running mean
        have hne : xs ≠ [] := by
          intro hnil
          rw [hnil] at hge
          simp at hge
        rw [List.map_append, List.map_cons, List.map_nil, cov_fold_append]
        rw [CovarianceIncrementalCalculator.append]
        have havg := cov_fold_diag_avg 1 xs
        simp only [havg.1, havg.2, ih hge,
          ArithmeticMeanIncrementalCalculator.get_statistic,
          mean_fold_statistic xs hne, Option.map_some]
        rw [show (mean_fold xs).append x = mean_fold (xs ++ [x]) from
          (mean_fold_append xs x).symm]
        simp only [ArithmeticMeanIncrementalCalculator.get_statistic,
          mean_fold_statistic (xs ++ [x]) (by simp), Option.map_some]
        simp only [Option.pure_def, Option.bind_some, Option.some_bind]
        rw [two_pass_m2_append xs x hne]
        simp only [List.sum_append, List.length_append, List.sum_cons,
          List.sum_nil, List.length_cons, List.length_nil]
        norm_num

lemma cov_fold_ddof (ddof : ℚ) (ps : List (ℚ × ℚ)) :
    (cov_fold ddof ps).ddof = ddof := by
  induction ps using List.reverseRecOn with
  | nil => rfl
  | append_singleton ps p ih =>
      rw [cov_fold_append]
      exact ih

/-- Appending one observation never decreases the two-pass sum of squared
deviations: the Welford increment is `(x - mean_before)^2 * n/(n+1) ≥ 0`. -/
lemma two_pass_m2_mono (xs : List ℚ) (hne : xs ≠ []) (x : ℚ) :
    two_pass_m2 xs ≤ two_pass_m2 (xs ++ [x]) := by
  have hn : (0 : ℚ) < xs.length := by
    exact_mod_cast List.length_pos.mpr hne
  have h2 : (x - xs.sum / xs.length) * (x - (xs.sum + x) / (xs.length + 1))
      = (x - xs.sum / xs.length) ^ 2 * (xs.length / (xs.length + 1)) := by
    have h1 : ((xs.length : ℚ) + 1) ≠ 0 := by positivity
    field_simp
    ring
  rw [two_pass_m2_append xs x hne, h2]
  have h3 : (0 : ℚ) ≤ (x - xs.sum / xs.length) ^ 2
      * (xs.length / (xs.length + 1)) := by positivity
  linarith

/-- With two distinct observations among the first two, the two-pass sum of
squared deviations is strictly positive (hence so is the sample variance at
every later prefix). -/
lemma two_pass_m2_pos (a b : ℚ) (l : List ℚ) (h : a ≠ b) :
    0 < two_pass_m2 (a :: b :: l) := by
  induction l using List.reverseRecOn with
  | nil =>
      have hom : two_pass_m2 [a, b] = (a - b) ^ 2 / 2 := by
        simp only [two_pass_m2, List.map_cons, List.map_nil, List.sum_cons,
          List.sum_nil, List.length_cons, List.length_nil]
        norm_num
        ring
      rw [hom]
      have hne0 : a - b ≠ 0 := sub_ne_zero.mpr h
      have h2 : 0 < (a - b) ^ 2 :=
        (sq_nonneg (a - b)).lt_of_ne (Ne.symm (pow_ne_zero 2 hne0))
      exact div_pos h2 (by norm_num)
  | append_singleton l x ih =>
      have hsplit : (a :: b :: (l ++ [x])) = (a :: b :: l) ++ [x] := by simp
      rw [hsplit]
      exact lt_of_lt_of_le ih
        (two_pass_m2_mono (a :: b :: l) (by simp) x)

/-- The owned calculators of a control-variate run with `y = x` are exactly
the plain mean, variance and (diagonal) covariance folds, and the wrapped
target is the mean fold of the logged fed values. -/
lemma cv_fold_diag_components (xs : List ℚ) :
    (cv_fold_diag xs).control_variate_mean_calculator = mean_fold xs
      ∧ (cv_fold_diag xs).control_variate_variance_calculator
          = var_fold 1 false xs
      ∧ (cv_fold_diag xs).covariance_calculator
          = cov_fold 1 (xs.map (fun x => (x, x)))
      ∧ (cv_fold_diag xs).calculator = mean_fold (cv_fed_log xs) := by
  induction xs using List.reverseRecOn with
  | nil => exact ⟨rfl, rfl, rfl, rfl⟩
  | append_singleton xs x ih =>
      obtain ⟨h1, h2, h3, h4⟩ := ih
      rw [cv_fold_diag_append, ControlVariateIncrementalCalculator.append]
      refine ⟨?_, ?_, ?_, ?_⟩
      · show (cv_fold_diag xs).control_variate_mean_calculator.append x
          = mean_fold (xs ++ [x])
        rw [h1, mean_fold_append]
      · show (cv_fold_diag xs).control_variate_variance_calculator.append x
          = var_fold 1 false (xs ++ [x])
        rw [h2, var_fold_append]
      · show (cv_fold_diag xs).covariance_calculator.append (x, x)
          = cov_fold 1 ((xs ++ [x]).map (fun x => (x, x)))
        rw [h3, List.map_append, List.map_cons, List.map_nil, cov_fold_append]
      · show (cv_fold_diag xs).calculator.append
            ((cv_fold_diag xs).adjusted_value x x)
          = mean_fold (cv_fed_log (xs ++ [x]))
        rw [h4, cv_fed_log_append, mean_fold_append]

lemma adjusted_value_eq_running_mean (xs : List ℚ) (hne : xs ≠ []) (x : ℚ)
    (hpos : 0 < two_pass_m2 (xs ++ [x])) :
    (cv_fold_diag xs).adjusted_value x x
      = (xs.sum + x) / (xs.length + 1) := by
  obtain ⟨h1, h2, h3, _⟩ := cv_fold_diag_components xs
  have hlp : 1 ≤ xs.length := List.length_pos.mpr hne
  have hn : (0 : ℚ) < xs.length := by exact_mod_cast hlp
  have hlen1 : (xs ++ [x]).length = xs.length + 1 := by simp
  have hcast : ((xs.length + 1 : ℕ) : ℚ) - 1 = (xs.length : ℚ) := by
    push_cast
    ring
  have hm : (mean_fold (xs ++ [x])).get_statistic
      = some ((xs.sum + x) / (xs.length + 1)) := by
    rw [ArithmeticMeanIncrementalCalculator.get_statistic,
      mean_fold_statistic (xs ++ [x]) (by simp)]
    congr 1
    simp only [List.sum_append, List.length_append, List.sum_cons,
      List.sum_nil, List.length_cons, List.length_nil]
    push_cast
    ring_nf
  have hv : (var_fold 1 false (xs ++ [x])).get_statistic
      = some (two_pass_m2 (xs ++ [x]) / (xs.length : ℚ)) := by
    rw [VarianceIncrementalCalculator.get_statistic, var_fold_count, hlen1,
      (var_fold_consts 1 false (xs ++ [x])).1,
      var_fold_statistic 1 (xs ++ [x]) (by simp)]
    rw [if_neg (by omega)]
    simp only [hcast]
    rfl
  have hc : (cov_fold 1 ((xs ++ [x]).map (fun y => (y, y)))).get_statistic
      = some (two_pass_m2 (xs ++ [x]) / (xs.length : ℚ)) := by
    rw [CovarianceIncrementalCalculator.get_statistic, cov_fold_count,
      List.length_map, hlen1, cov_fold_ddof,
      cov_fold_diag_statistic (xs ++ [x]) (by rw [hlen1]; omega)]
    rw [if_neg (by omega)]
    simp only [hcast]
    rfl
  have hq : two_pass_m2 (xs ++ [x]) / (xs.length : ℚ) ≠ 0 :=
    div_ne_zero (ne_of_gt hpos) (ne_of_gt hn)
  rw [ControlVariateIncrementalCalculator.adjusted_value]
  rw [h1, h2, h3]
  rw [show (mean_fold xs).append x = mean_fold (xs ++ [x]) from
    (mean_fold_append xs x).symm]
  rw [show (var_fold 1 false xs).append x = var_fold 1 false (xs ++ [x]) from
    (var_fold_append 1 false xs x).symm]
  rw [show (cov_fold 1 (xs.map (fun y => (y, y)))).append (x, x)
      = cov_fold 1 ((xs ++ [x]).map (fun y => (y, y))) from by
    rw [List.map_append, List.map_cons, List.map_nil, cov_fold_append]]
  rw [hm, hv, hc]
  simp only [Option.bind_eq_bind, Option.some_bind, qdiv]
  rw [if_neg hq, div_self hq]
  simp only [Option.pure_def, Option.some_bind, Option.getD_some]
  ring

/-- On the very first observation the covariance statistic is NaN (fewer
than 2 observations), so the adjustment is non-finite and the fallback feeds
raw `x`. -/
lemma adjusted_value_init (x : ℚ) :
    ControlVariateIncrementalCalculator.init.adjusted_value x x = x := by
  simp [ControlVariateIncrementalCalculator.adjusted_value,
    ControlVariateIncrementalCalculator.init,
    CovarianceIncrementalCalculator.append,
    CovarianceIncrementalCalculator.init,
    CovarianceIncrementalCalculator.get_statistic,
    ArithmeticMeanIncrementalCalculator.append,
    ArithmeticMeanIncrementalCalculator.init,
    ArithmeticMeanIncrementalCalculator.get_statistic]

/-- The running means of the prefixes of length `2 .. n` of `xs`. -/
def prefix_means_from_two (xs : List ℚ) : List ℚ :=
  (List.range (xs.length - 1)).map
    (fun j => (xs.take (j + 2)).sum / ((j : ℚ) + 2))

lemma prefix_means_from_two_append (xs : List ℚ) (h2 : 2 ≤ xs.length)
    (x : ℚ) :
    prefix_means_from_two (xs ++ [x])
      = prefix_means_from_two xs ++ [(xs.sum + x) / (xs.length + 1)] := by
  unfold prefix_means_from_two
  have hlen : (xs ++ [x]).length = xs.length + 1 := by simp
  rw [hlen]
  have h1 : xs.length + 1 - 1 = (xs.length - 1) + 1 := by omega
  rw [h1, List.range_succ, List.map_append, List.map_cons, List.map_nil]
  congr 1
  · apply List.map_congr_left
    intro j hj
    have hj2 : j + 2 ≤ xs.length := by
      simp only [List.mem_range] at hj
      omega
    rw [List.take_append_of_le_length hj2]
  · have htake : (xs ++ [x]).take ((xs.length - 1) + 2) = xs ++ [x] := by
      apply List.take_of_length_le
      rw [hlen]
      omega
    rw [htake]
    simp only [List.sum_append, List.sum_cons, List.sum_nil]
    have hc : ((xs.length - 1 : ℕ) : ℚ) = (xs.length : ℚ) - 1 := by
      rw [Nat.cast_sub (by omega)]
      norm_num
    rw [hc]
    congr 1
    ring

/-- With `y = x` and the first two observations distinct, the value fed to
the wrapped target is raw `x` at the first observation and the control
variate's running mean at every later one. -/
lemma cv_fed_log_spec (a b : ℚ) (l : List ℚ) (h : a ≠ b) :
    cv_fed_log (a :: b :: l) = a :: prefix_means_from_two (a :: b :: l) := by
  induction l using List.reverseRecOn with
  | nil =>
      have hla : cv_fed_log [a] = [a] := by
        show cv_fed_log ([] ++ [a]) = [a]
        rw [cv_fed_log_append]
        show [] ++ [ControlVariateIncrementalCalculator.init.adjusted_value a a]
          = [a]
        rw [adjusted_value_init]
        rfl
      have hpos : 0 < two_pass_m2 ([a] ++ [b]) := two_pass_m2_pos a b [] h
      have hadv : (cv_fold_diag [a]).adjusted_value b b = (a + b) / 2 := by
        have h5 := adjusted_value_eq_running_mean [a] (by simp) b hpos
        norm_num at h5
        exact h5
      show cv_fed_log ([a] ++ [b]) = a :: prefix_means_from_two [a, b]
      rw [cv_fed_log_append, hla, hadv]
      simp only [prefix_means_from_two, List.length_cons, List.length_nil]
      norm_num [List.range_succ]
  | append_singleton l x ih =>
      have hsplit : (a :: b :: (l ++ [x])) = (a :: b :: l) ++ [x] := by simp
      have hpos : 0 < two_pass_m2 ((a :: b :: l) ++ [x]) := by
        rw [← hsplit]
        exact two_pass_m2_pos a b (l ++ [x]) h
      rw [hsplit, cv_fed_log_append, ih,
        adjusted_value_eq_running_mean (a :: b :: l) (by simp) x hpos,
        prefix_means_from_two_append (a :: b :: l) (by simp) x]
      simp

/-- C8, amended: a `ControlVariateIncrementalCalculator` wrapping a mean
estimator, fed `append(x, control_variate=x)` (perfect correlation) with the
first two observations distinct (nonzero variance from the second
observation on), feeds the wrapped estimator raw `x` at the first
observation (non-finite fallback) and the control variate's running mean at
every later observation; `get_statistic` therefore returns the average of
the first observation and the running prefix means — not the control
variate's overall mean. -/
theorem C8_control_variate_per_step_cancellation (a b : ℚ) (l : List ℚ)
    (h : a ≠ b) :
    cv_fed_log (a :: b :: l) = a :: prefix_means_from_two (a :: b :: l)
      ∧ (cv_fold_diag (a :: b :: l)).get_statistic
          = some ((a :: prefix_means_from_two (a :: b :: l)).sum
              / ((a :: prefix_means_from_two (a :: b :: l)).length : ℚ)) := by
  refine ⟨cv_fed_log_spec a b l h, ?_⟩
  have h4 := (cv_fold_diag_components (a :: b :: l)).2.2.2
  rw [ControlVariateIncrementalCalculator.get_statistic, h4,
    ArithmeticMeanIncrementalCalculator.get_statistic, cv_fed_log_spec a b l h,
    mean_fold_statistic _ (by simp)]

/-- Witness for the amended C8 at the input `[0, 2, 4]`. -/
theorem C8_control_variate_per_step_cancellation_witness :
    (0 : ℚ) ≠ 2 ∧
      (cv_fed_log [0, 2, 4] = 0 :: prefix_means_from_two [0, 2, 4]
        ∧ (cv_fold_diag [0, 2, 4]).get_statistic
            = some ((0 :: prefix_means_from_two ([0, 2, 4] : List ℚ)).sum
                / ((0 :: prefix_means_from_two ([0, 2, 4] : List ℚ)).length : ℚ))) :=
  ⟨by norm_num, C8_control_variate_per_step_cancellation 0 2 [4] (by norm_num)⟩
